import Mathlib

/-!
Shallow embedding of the DolphinBrowse trial ledger, realtime fan-out hub,
day-key computation and client reconnect state machine, together with
theorems settling the listed claims about them.

Timestamps are modelled as integers (milliseconds since the Unix epoch),
maps as functions or association lists, and the mutable module-level state
of the TypeScript services as explicit state values threaded through the
operations.
-/

namespace DolphinBrowse

/-! ### Day-key computation (server/services/time.ts)

The source formats the instant as an IST wall-clock string
(`toLocaleString` with time zone Asia/Kolkata, a fixed +05:30 offset) and
re-parses that string with `new Date(...)`, which interprets it in the
server's own local zone; `toISOString().slice(0, 10)` then takes the UTC
calendar date of the re-parsed instant.  The net effect on the underlying
millisecond value is a shift by the IST offset minus the server's local
UTC offset, and the resulting date string is determined by the floor
division of the shifted value by the length of a day.  We represent a date
string by its day index since the epoch. -/

def istOffsetMs : Int := 19800000

def msPerDay : Int := 86400000

/-- Embeds `getIstDate`: the millisecond value of the `Date` produced by
re-parsing the IST wall-clock rendering of instant `t` on a server whose
local zone sits `serverOffsetMs` ahead of UTC. -/
def getIstDate (serverOffsetMs t : Int) : Int :=
  t + istOffsetMs - serverOffsetMs

/-- Embeds `getIstDateKey`: the calendar date (as a day index standing for
the `toISOString().slice(0, 10)` string) of `getIstDate`. -/
def getIstDateKey (serverOffsetMs t : Int) : Int :=
  (getIstDate serverOffsetMs t).fdiv msPerDay

/-- Modelled from the spec: the day key the spec describes, namely the
calendar date obtained by converting the instant into the fixed +05:30
reference zone and truncating to day granularity, with no dependence on
the server's local zone.  Used only to compare the code's key against the
spec's wording. -/
def specCivilDayKey (t : Int) : Int :=
  (t + istOffsetMs).fdiv msPerDay

/-! ### Trial ledger (server/services/trial.ts) -/

structure Usage where
  days : List (Int × Int)
  secondsToday : Int
  lastDay : Int
  activeStart : Option Int
deriving DecidableEq, Repr

def DAY_MS : Int := 86400000

def MAX_SECONDS : Int := 15 * 60

def MAX_DAYS : Nat := 5

/-- The module-level `usage` map, keyed by user key. -/
abbrev Store := String → Option Usage

/-- Embeds `Map.prototype.set` on the `days` map of a ledger: replace the
entry with a matching key, or append a new entry (JavaScript maps keep
insertion order and append fresh keys at the end). -/
def daysSet (m : List (Int × Int)) (k v : Int) : List (Int × Int) :=
  if m.any (fun p => decide (p.1 = k)) then
    m.map (fun p => if p.1 = k then (k, v) else p)
  else
    m ++ [(k, v)]

/-- Embeds `cleanOldDays`: drop day entries whose recorded timestamp is
older than 30 days before `now`. -/
def cleanOldDays (u : Usage) (now : Int) : Usage :=
  { u with days := u.days.filter (fun p => decide (now - 30 * DAY_MS ≤ p.2)) }

/-- Embeds `beginSession`.  Returns the updated store and the number the
function returns (remaining seconds for the day, or 0 when the distinct
day count exceeds the cap). -/
def beginSession (serverOffsetMs : Int) (st : Store) (userKey : String)
    (now : Int) : Store × Int :=
  let dayKey := getIstDateKey serverOffsetMs now
  let u0 := match st userKey with
    | some u => u
    | none => { days := [], secondsToday := 0, lastDay := dayKey, activeStart := none }
  let u1 := cleanOldDays u0 now
  let u2 := if u1.lastDay ≠ dayKey then { u1 with secondsToday := 0, lastDay := dayKey } else u1
  let u3 := { u2 with days := daysSet u2.days dayKey now }
  if u3.days.length > MAX_DAYS then
    (fun x => if x = userKey then some u3 else st x, 0)
  else
    (fun x => if x = userKey then some { u3 with activeStart := some now } else st x,
     max 0 (MAX_SECONDS - u3.secondsToday))

/-- Embeds `endSession`.  The source guards with `!u.activeStart`, which
is also true for the (degenerate) timestamp 0, so an `activeStart` of 0 is
treated like an absent one. -/
def endSession (st : Store) (userKey : String) (now : Int) : Store :=
  match st userKey with
  | none => st
  | some u =>
    match u.activeStart with
    | none => st
    | some start =>
      if start = 0 then st
      else
        fun x => if x = userKey then
          some { u with secondsToday := u.secondsToday + (now - start).fdiv 1000,
                        activeStart := none }
        else st x

/-- Embeds `getTrialBudgetSecondsLeft`. -/
def getTrialBudgetSecondsLeft (serverOffsetMs : Int) (st : Store)
    (userKey : String) (now : Int) : Int :=
  match st userKey with
  | none => MAX_SECONDS
  | some u =>
    if u.lastDay ≠ getIstDateKey serverOffsetMs now then MAX_SECONDS
    else max 0 (MAX_SECONDS - u.secondsToday)

/-! ### Realtime fan-out hub (server WebSocket hub in trial.ts's module group)

The hub keeps a module-level `Map` from session id to a `Set` of
connections.  A connection is modelled by an identity and its transport
`readyState`; the map is modelled as an association list (JavaScript maps
iterate in insertion order), the set as a duplicate-free list. -/

structure Conn where
  id : Nat
  readyState : Nat
deriving DecidableEq, Repr

/-- WebSocket.OPEN. -/
def WS_OPEN : Nat := 1

abbrev Hub := List (String × List Conn)

/-- Embeds `sessionConnections.get(sessionId)`. -/
def hubGet (h : Hub) (sid : String) : Option (List Conn) :=
  match h with
  | [] => none
  | p :: r => if p.1 = sid then some p.2 else hubGet r sid

/-- Embeds `subscribe`: create the session's set when absent, then add the
connection to it (a set add, so already-present connections are not
duplicated). -/
def subscribe (h : Hub) (sid : String) (c : Conn) : Hub :=
  match hubGet h sid with
  | none => h ++ [(sid, [c])]
  | some _ =>
    h.map (fun p =>
      if p.1 = sid then (p.1, if c ∈ p.2 then p.2 else p.2 ++ [c]) else p)

/-- Embeds `unsubscribe`: delete the connection from every session's set
and delete any session entry whose set becomes empty. -/
def unsubscribe (h : Hub) (c : Conn) : Hub :=
  (h.map (fun p => (p.1, p.2.filter (fun d => decide (d ≠ c))))).filter
    (fun p => !p.2.isEmpty)

/-- Embeds `broadcast`: serialize the message once and send it to every
connection in the session's set whose transport is open.  The hub state is
returned unchanged (the source never writes to `sessionConnections` here);
the second component lists the performed sends as connection/payload
pairs. -/
def broadcast {α : Type} (stringifyJson : α → String) (h : Hub)
    (sid : String) (message : α) : Hub × List (Conn × String) :=
  match hubGet h sid with
  | none => (h, [])
  | some conns =>
    let msg := stringifyJson message
    (h, (conns.filter (fun c => decide (c.readyState = WS_OPEN))).map
          (fun c => (c, msg)))

/-! ### Realtime client (client/src/hooks/use-websocket.ts)

The hook's mutable refs and React state are collected into one record;
the socket callbacks, the two timers and the `disconnect` function become
transition functions from state to state plus a list of externally visible
actions (scheduling a reconnect, attempting a connection, sending a frame,
closing the transport). -/

structure WsOptions where
  reconnect : Bool
  maxRetries : Nat
  heartbeatMs : Nat
  nodeMode : Bool
deriving DecidableEq, Repr

/-- The hook's defaults: reconnect on, 10 retries, 25 s heartbeat. -/
def defaultWsOptions : WsOptions :=
  { reconnect := true, maxRetries := 10, heartbeatMs := 25000, nodeMode := false }

structure ClientState where
  connected : Bool
  reconnecting : Bool
  retryCount : Nat
  error : Option String
  messages : List String
  lastMessage : Option String
  hbTimer : Bool
  retryTimer : Bool
  manualClose : Bool
  ws : Bool
deriving DecidableEq, Repr

/-- State right after the mount effect ran `connect()`: flags cleared, a
socket created. -/
def initialClientState : ClientState :=
  { connected := false, reconnecting := false, retryCount := 0, error := none,
    messages := [], lastMessage := none, hbTimer := false, retryTimer := false,
    manualClose := false, ws := true }

inductive WsAction where
  | connectAttempt
  | scheduleReconnect (delayMs : Nat)
  | sendFrame (payload : String)
  | closeTransport
deriving DecidableEq, Repr

/-- True for the actions that start or schedule a connection attempt. -/
def schedulesConnection : WsAction → Bool
  | .connectAttempt => true
  | .scheduleReconnect _ => true
  | _ => false

/-- The backoff of the close handler: min(10000, 500 · 2^(attempt−1)). -/
def backoffDelay (nextRetry : Nat) : Nat :=
  min 10000 (500 * 2 ^ (nextRetry - 1))

/-- Embeds `ws.onopen`. -/
def handleOpen (o : WsOptions) (s : ClientState) : ClientState × List WsAction :=
  let s1 := { s with connected := true, reconnecting := false, retryCount := 0 }
  let subActs := if o.nodeMode then [WsAction.sendFrame "subscribe"] else []
  if o.heartbeatMs ≠ 0 ∧ s1.hbTimer = false then
    ({ s1 with hbTimer := true }, subActs)
  else (s1, subActs)

/-- Embeds `ws.onmessage` (payloads kept abstract as strings). -/
def handleMessage (s : ClientState) (payload : String) :
    ClientState × List WsAction :=
  ({ s with lastMessage := some payload, messages := s.messages ++ [payload] }, [])

/-- Embeds `ws.onerror`. -/
def handleError (s : ClientState) : ClientState × List WsAction :=
  ({ s with error := some "WebSocket error" }, [])

/-- Embeds `ws.onclose`: mark disconnected, clear the heartbeat, and —
unless the close was manual or reconnecting is off — clamp the retry
counter with `min`, run the (unreachable, see C1) stop guard, set the
reconnecting flag and schedule the backoff timer. -/
def handleClose (o : WsOptions) (s : ClientState) : ClientState × List WsAction :=
  let s1 := { s with connected := false, hbTimer := false }
  if s1.manualClose = true ∨ o.reconnect = false then (s1, [])
  else
    let nextRetry := min (s1.retryCount + 1) o.maxRetries
    if nextRetry > o.maxRetries then (s1, [])
    else
      ({ s1 with retryCount := nextRetry, reconnecting := true, retryTimer := true },
       [WsAction.scheduleReconnect (backoffDelay nextRetry)])

/-- Embeds the reconnect timer firing: clear the timer handle and call
`connect()` (which creates a fresh socket). -/
def fireRetryTimer (s : ClientState) : ClientState × List WsAction :=
  if s.retryTimer = true then
    ({ s with retryTimer := false, ws := true }, [WsAction.connectAttempt])
  else (s, [])

/-- Embeds the heartbeat interval firing: send a ping when the socket is
open. -/
def fireHeartbeat (s : ClientState) : ClientState × List WsAction :=
  if s.hbTimer = true ∧ s.ws = true then (s, [WsAction.sendFrame "ping"])
  else (s, [])

/-- Embeds `disconnect`: set the manual-close flag, clear both timers,
close and drop the transport, report disconnected and not reconnecting. -/
def disconnect (s : ClientState) : ClientState × List WsAction :=
  ({ s with manualClose := true, hbTimer := false, retryTimer := false,
            ws := false, connected := false, reconnecting := false },
   if s.ws = true then [WsAction.closeTransport] else [])

inductive WsEvent where
  | opened
  | message (payload : String)
  | errored
  | closed
  | hbTick
  | retryTick
deriving DecidableEq, Repr

/-- One step of the client state machine: dispatch an event to its
handler.  Timer events on a cleared timer are no-ops (a cleared timer
cannot fire). -/
def step (o : WsOptions) (s : ClientState) : WsEvent → ClientState × List WsAction
  | .opened => handleOpen o s
  | .message p => handleMessage s p
  | .errored => handleError s
  | .closed => handleClose o s
  | .hbTick => fireHeartbeat s
  | .retryTick => fireRetryTimer s

/-- Run a sequence of events, collecting all actions. -/
def runEvents (o : WsOptions) (s : ClientState) :
    List WsEvent → ClientState × List WsAction
  | [] => (s, [])
  | e :: es =>
    let r1 := step o s e
    let r2 := runEvents o r1.1 es
    (r2.1, r1.2 ++ r2.2)

/-- Ten failed reconnect cycles: each cycle is a socket close followed by
the scheduled retry timer firing (and the resulting attempt failing with
the next close). -/
def tenFailedReconnects : List WsEvent :=
  (List.replicate 10 [WsEvent.closed, WsEvent.retryTick]).flatten

/-! ### Drivers and instances used by the theorems -/

/-- Seconds of an interval as `endSession` accrues them:
floor((end − start) / 1000). -/
def flooredIntervalSeconds (p : Int × Int) : Int :=
  (p.2 - p.1).fdiv 1000

/-- Total accrued seconds of a list of intervals. -/
def intervalsTotal (L : List (Int × Int)) : Int :=
  (L.map flooredIntervalSeconds).sum

/-- Run a properly paired `beginSession`/`endSession` call for each
interval in turn, collecting the values `beginSession` returns. -/
def runIntervals (serverOffsetMs : Int) (userKey : String) :
    Store → List (Int × Int) → Store × List Int
  | st, [] => (st, [])
  | st, p :: rest =>
    let b := beginSession serverOffsetMs st userKey p.1
    let st2 := endSession b.1 userKey p.2
    let r := runIntervals serverOffsetMs userKey st2 rest
    (r.1, b.2 :: r.2)

/-- The values the claim predicts `beginSession` returns along a single-day
sequence: the cap minus the seconds accrued so far. -/
def expectedReturns (acc : Int) : List (Int × Int) → List Int
  | [] => []
  | p :: rest => (MAX_SECONDS - acc) :: expectedReturns (acc + flooredIntervalSeconds p) rest

/-- An interval whose endpoints both fall on civil day `k` (under server
offset `o`), runs forward, and starts at a genuine clock instant (the epoch
instant 0 is excluded because the source's falsy `activeStart` guard treats
it like an absent session). -/
abbrev SameDayInterval (o k : Int) (p : Int × Int) : Prop :=
  getIstDateKey o p.1 = k ∧ getIstDateKey o p.2 = k ∧ p.1 ≤ p.2 ∧ 0 < p.1

/-- Shape of the user's ledger along a single-day sequence: either still
absent with nothing accrued, or a one-day ledger for day `k` with `acc`
seconds accrued and no open session. -/
def LedgerAt (o : Int) (st : Store) (userKey : String) (k acc : Int) : Prop :=
  (st userKey = none ∧ acc = 0) ∨
  (∃ t0, getIstDateKey o t0 = k ∧
    st userKey = some { days := [(k, t0)], secondsToday := acc, lastDay := k,
                        activeStart := none })

/-- A ledger with a session opened at instant 1000 (used against C9: the
close at instant 500 precedes the start). -/
def skewUsage : Usage :=
  { days := [(0, 1000)], secondsToday := 0, lastDay := 0, activeStart := some 1000 }

def skewStore : Store := fun x => if x = "u" then some skewUsage else none

/-- A ledger with a session opened at instant 2000 (witness instance for
the amended C9). -/
def floorUsage : Usage :=
  { days := [(0, 2000)], secondsToday := 7, lastDay := 0, activeStart := some 2000 }

def floorStore : Store := fun x => if x = "u" then some floorUsage else none

/-- A ledger that already holds five distinct days (keys 0–4), all touched
at instant 432000000 (= the start of civil day 5 under a UTC server), with
300 seconds accrued on its last day and no open session. -/
def fiveDayUsage : Usage :=
  { days := [(0, 432000000), (1, 432000000), (2, 432000000),
             (3, 432000000), (4, 432000000)],
    secondsToday := 300, lastDay := 0, activeStart := none }

def fiveDayStore : Store := fun x => if x = "u" then some fiveDayUsage else none

/-- A second five-day ledger (keys 10–14) used by the C3 witness. -/
def fiveDayUsageB : Usage :=
  { days := [(10, 432000000), (11, 432000000), (12, 432000000),
             (13, 432000000), (14, 432000000)],
    secondsToday := 0, lastDay := 10, activeStart := none }

def fiveDayStoreB : Store := fun x => if x = "u" then some fiveDayUsageB else none

/-- The empty usage store. -/
def emptyStore : Store := fun _ => none

/-- One 300-second interval starting at instant 1000 (C2 witness
scenario). -/
def oneInterval : List (Int × Int) := [(1000, 301000)]

/-! ## Helper lemmas -/

/-- Two instants that receive the same day key are less than one civil day
apart. -/
lemma sub_lt_msPerDay_of_key_eq (o a b : Int)
    (h : getIstDateKey o a = getIstDateKey o b) : a - b < msPerDay := by
  have hd : (0 : Int) < msPerDay := by decide
  have ha := Int.ediv_add_emod (getIstDate o a) msPerDay
  have hb := Int.ediv_add_emod (getIstDate o b) msPerDay
  have hma : 0 ≤ getIstDate o a % msPerDay := Int.emod_nonneg _ (by decide)
  have hmb : getIstDate o b % msPerDay < msPerDay := Int.emod_lt_of_pos _ hd
  have hma2 : getIstDate o a % msPerDay < msPerDay := Int.emod_lt_of_pos _ hd
  have hmb2 : 0 ≤ getIstDate o b % msPerDay := Int.emod_nonneg _ (by decide)
  have hk : getIstDate o a / msPerDay = getIstDate o b / msPerDay := by
    have e1 : getIstDateKey o a = getIstDate o a / msPerDay := by
      unfold getIstDateKey
      exact Int.fdiv_eq_ediv _ (by decide)
    have e2 : getIstDateKey o b = getIstDate o b / msPerDay := by
      unfold getIstDateKey
      exact Int.fdiv_eq_ediv _ (by decide)
    rw [← e1, ← e2, h]
  have hab : getIstDate o a - getIstDate o b
      = getIstDate o a % msPerDay - getIstDate o b % msPerDay := by
    have := hk ▸ ha
    omega
  have : getIstDate o a - getIstDate o b = a - b := by
    unfold getIstDate; ring
  omega

/-- Updating a store at a key and reading it back. -/
lemma store_update_same (st : Store) (userKey : String) (v : Usage) :
    (fun x => if x = userKey then some v else st x) userKey = some v := by
  simp

/-- A successful `hubGet` returns an entry of the hub. -/
lemma hubGet_mem {h : Hub} {sid : String} {l : List Conn}
    (hg : hubGet h sid = some l) : (sid, l) ∈ h := by
  induction h with
  | nil => simp [hubGet] at hg
  | cons p r ih =>
    obtain ⟨p1, p2⟩ := p
    simp only [hubGet] at hg
    by_cases hp : p1 = sid
    · rw [if_pos hp] at hg
      injection hg with hg2
      subst hp
      subst hg2
      exact List.mem_cons_self _ _
    · rw [if_neg hp] at hg
      exact List.mem_cons_of_mem _ (ih hg)

/-- Every entry of `unsubscribe h c` is nonempty and free of `c`. -/
lemma unsubscribe_entry_spec (h : Hub) (c : Conn) :
    ∀ p ∈ unsubscribe h c, c ∉ p.2 ∧ p.2 ≠ [] := by
  intro p hp
  unfold unsubscribe at hp
  rw [List.mem_filter] at hp
  obtain ⟨hmap, hne⟩ := hp
  rw [List.mem_map] at hmap
  obtain ⟨x, _, hx⟩ := hmap
  constructor
  · intro hc
    rw [← hx] at hc
    simp only [List.mem_filter, decide_eq_true_eq] at hc
    exact hc.2 rfl
  · intro hnil
    rw [hnil] at hne
    simp at hne

/-! ## Claims -/

/-- C1: the claim — with the default policy (reconnect on, maxRetries = 10),
once 10 consecutive reconnect attempts have failed the close handler
schedules no 11th attempt and the reconnecting flag clears.  The code
clamps the next attempt number with min before its stop guard, so the
guard `nextRetry > maxRetries` can never hold: after ten failed
close/retry cycles the retry counter sits at 10, and one more close still
schedules a reconnect in 10000 ms, leaving the reconnecting flag set and a
retry timer pending.  This theorem evaluates the embedded code at that
failing input, exhibiting the divergence. -/
theorem C1_eleventh_reconnect_still_scheduled :
    (runEvents defaultWsOptions initialClientState tenFailedReconnects).1.retryCount = 10 ∧
    (handleClose defaultWsOptions
        (runEvents defaultWsOptions initialClientState tenFailedReconnects).1).2
      = [WsAction.scheduleReconnect 10000] ∧
    (handleClose defaultWsOptions
        (runEvents defaultWsOptions initialClientState tenFailedReconnects).1).1.reconnecting
      = true ∧
    (handleClose defaultWsOptions
        (runEvents defaultWsOptions initialClientState tenFailedReconnects).1).1.retryTimer
      = true := by
  decide

/-- C7 counterexample: the claim says the day key is the calendar date of
the instant in the fixed +05:30 zone, independent of server-local time.
On a server in a +10:00 zone the re-parse step shifts the instant by the
server's own offset: the instant 2024-01-01T18:40:00Z (00:10 IST on
2024-01-02, day index 19724) is bucketed under day index 19723 instead. -/
theorem C7_counterexample :
    getIstDateKey 36000000 1704134400000 = 19723 ∧
    specCivilDayKey 1704134400000 = 19724 ∧
    getIstDateKey 36000000 1704134400000 ≠ specCivilDayKey 1704134400000 := by
  decide

/-- C7 amended: on a server whose local offset is zero (UTC), the day key
of every instant equals the calendar date of the instant converted into
the fixed +05:30 zone and truncated to day granularity; in particular the
two cited instants 2024-01-01T23:50:00Z and 2024-01-02T00:10:00Z both fall
on IST civil day 2024-01-02 (IST midnight, 18:30 UTC, is not between
them) and receive the same key.  The key is not independent of the
server-local zone in general. -/
theorem C7_amended_utc_server_key (t : Int) :
    getIstDateKey 0 t = specCivilDayKey t ∧
    getIstDateKey 0 1704153000000 = getIstDateKey 0 1704154200000 ∧
    getIstDateKey 0 1704153000000 = 19724 := by
  refine ⟨?_, by decide, by decide⟩
  unfold getIstDateKey getIstDate specCivilDayKey
  rw [sub_zero]

/-- C8: `endSession` is idempotent — calling it twice in a row with no
intervening `beginSession` leaves the store exactly as after the first
call, whatever the ledger state: the first call clears any open
`activeStart`, so the second finds none and no-ops. -/
theorem C8_endSession_idempotent (st : Store) (userKey : String) (t1 t2 : Int) :
    endSession (endSession st userKey t1) userKey t2 = endSession st userKey t1 := by
  unfold endSession
  cases hu : st userKey with
  | none => simp [hu]
  | some u =>
    cases ha : u.activeStart with
    | none => simp [hu, ha]
    | some start =>
      by_cases h0 : start = 0
      · simp [hu, ha, h0]
      · simp [hu, ha, h0]

/-- C4: broadcasting a message to a session leaves the hub unchanged, and
delivers the one serialized payload to exactly those connections currently
in that session's subscription set whose transport is open — every
performed send goes to an open member of the session's set, and every open
member of the set receives the payload.  Connections subscribed only to
other sessions, and non-open members, receive nothing. -/
theorem C4_broadcast_fanout {α : Type} (f : α → String) (h : Hub)
    (sid : String) (m : α) :
    (broadcast f h sid m).1 = h ∧
    (∀ q ∈ (broadcast f h sid m).2,
      q.2 = f m ∧ q.1 ∈ (hubGet h sid).getD [] ∧ q.1.readyState = WS_OPEN) ∧
    (∀ c : Conn, c ∈ (hubGet h sid).getD [] → c.readyState = WS_OPEN →
      (c, f m) ∈ (broadcast f h sid m).2) := by
  unfold broadcast
  cases hg : hubGet h sid with
  | none => simp
  | some conns =>
    refine ⟨rfl, ?_, ?_⟩
    · intro q hq
      simp only [List.mem_map, List.mem_filter, decide_eq_true_eq] at hq
      obtain ⟨c, ⟨hc, hro⟩, hq⟩ := hq
      rw [← hq]
      exact ⟨rfl, hc, hro⟩
    · intro c hc hro
      simp only [List.mem_map, List.mem_filter, decide_eq_true_eq]
      exact ⟨c, ⟨hc, hro⟩, rfl⟩

/-- C5: `unsubscribe` removes the connection from every session's
subscription set and drops each session entry whose set becomes empty;
consequently a broadcast to any session after the unsubscribe performs no
send to that connection. -/
theorem C5_unsubscribe_removes_everywhere {α : Type} (f : α → String)
    (h : Hub) (c : Conn) (sid : String) (m : α) :
    (∀ p ∈ unsubscribe h c, c ∉ p.2 ∧ p.2 ≠ []) ∧
    (∀ q ∈ (broadcast f (unsubscribe h c) sid m).2, q.1 ≠ c) := by
  refine ⟨unsubscribe_entry_spec h c, ?_⟩
  intro q hq
  unfold broadcast at hq
  cases hg : hubGet (unsubscribe h c) sid with
  | none => rw [hg] at hq; simp at hq
  | some conns =>
    rw [hg] at hq
    simp only [List.mem_map, List.mem_filter, decide_eq_true_eq] at hq
    obtain ⟨d, ⟨hd, _⟩, hq⟩ := hq
    have hmem : (sid, conns) ∈ unsubscribe h c := hubGet_mem hg
    have hnot := (unsubscribe_entry_spec h c _ hmem).1
    intro hqc
    rw [← hq] at hqc
    have hdc : d = c := hqc
    rw [hdc] at hd
    exact hnot hd

/-- Once the manual-close flag is set and no retry timer is pending, one
more event of any kind keeps it that way and neither attempts nor
schedules a connection. -/
lemma manual_step (o : WsOptions) (s : ClientState) (ev : WsEvent)
    (h1 : s.manualClose = true) (h2 : s.retryTimer = false) :
    (step o s ev).1.manualClose = true ∧ (step o s ev).1.retryTimer = false ∧
    ∀ a ∈ (step o s ev).2, schedulesConnection a = false := by
  cases ev with
  | opened =>
    simp only [step, handleOpen]
    split
    · refine ⟨h1, h2, ?_⟩
      intro a ha
      split at ha
      · simp only [List.mem_singleton] at ha
        rw [ha]; rfl
      · simp at ha
    · refine ⟨h1, h2, ?_⟩
      intro a ha
      split at ha
      · simp only [List.mem_singleton] at ha
        rw [ha]; rfl
      · simp at ha
  | message p =>
    exact ⟨h1, h2, by intro a ha; simp [step, handleMessage] at ha⟩
  | errored =>
    exact ⟨h1, h2, by intro a ha; simp [step, handleError] at ha⟩
  | closed =>
    simp only [step, handleClose, h1]
    rw [if_pos (Or.inl trivial)]
    exact ⟨rfl, h2, by intro a ha; simp at ha⟩
  | hbTick =>
    simp only [step, fireHeartbeat]
    split
    · refine ⟨h1, h2, ?_⟩
      intro a ha
      simp only [List.mem_singleton] at ha
      rw [ha]; rfl
    · exact ⟨h1, h2, by intro a ha; simp at ha⟩
  | retryTick =>
    simp only [step, fireRetryTimer, h2]
    rw [if_neg (by simp)]
    exact ⟨h1, h2, by intro a ha; simp at ha⟩

/-- The invariant of `manual_step`, carried over an arbitrary event
sequence. -/
lemma manual_run (o : WsOptions) (evs : List WsEvent) :
    ∀ s : ClientState, s.manualClose = true → s.retryTimer = false →
    (runEvents o s evs).1.manualClose = true ∧
    (runEvents o s evs).1.retryTimer = false ∧
    ∀ a ∈ (runEvents o s evs).2, schedulesConnection a = false := by
  induction evs with
  | nil =>
    intro s h1 h2
    exact ⟨h1, h2, by intro a ha; simp [runEvents] at ha⟩
  | cons e es ih =>
    intro s h1 h2
    obtain ⟨m1, m2, m3⟩ := manual_step o s e h1 h2
    obtain ⟨r1, r2, r3⟩ := ih (step o s e).1 m1 m2
    refine ⟨r1, r2, ?_⟩
    intro a ha
    simp only [runEvents, List.mem_append] at ha
    cases ha with
    | inl ha => exact m3 a ha
    | inr ha => exact r3 a ha

/-- C6: calling `disconnect` — in any state, in particular one with a
reconnect timer pending — sets the manual-close flag, clears the heartbeat
and reconnect timers, closes and drops the transport, and reports
disconnected and not reconnecting; afterwards no sequence of socket or
timer events ever attempts or schedules a connection, and no retry timer
is ever pending again. -/
theorem C6_disconnect_cancels_reconnect (o : WsOptions) (s : ClientState)
    (evs : List WsEvent) :
    (disconnect s).1.manualClose = true ∧
    (disconnect s).1.hbTimer = false ∧
    (disconnect s).1.retryTimer = false ∧
    (disconnect s).1.ws = false ∧
    (disconnect s).1.connected = false ∧
    (disconnect s).1.reconnecting = false ∧
    (∀ a ∈ (runEvents o (disconnect s).1 evs).2, schedulesConnection a = false) ∧
    (runEvents o (disconnect s).1 evs).1.retryTimer = false := by
  have hm := manual_run o evs (disconnect s).1 rfl rfl
  exact ⟨rfl, rfl, rfl, rfl, rfl, rfl, hm.2.2, hm.2.1⟩

/-- C9 counterexample: the claim says the seconds added by `endSession`
equal (now − activeStart)/1000 truncated toward zero for every pair of
timestamps, including clock skew.  The code uses `Math.floor`, which
truncates toward negative infinity: with a session opened at instant 1000
and closed at instant 500, the code adds −1 second (leaving
`secondsUsedToday` at −1), while truncation toward zero would add 0. -/
theorem C9_counterexample :
    ((endSession skewStore "u" 500) "u").map Usage.secondsToday = some (-1) ∧
    Int.tdiv (500 - 1000) 1000 = 0 ∧
    skewUsage.secondsToday = 0 := by
  decide

/-- C9 amended: for every `endSession` call with an open, nonzero
`activeStart` (the source's falsy guard skips an `activeStart` of exactly
0), the seconds added to `secondsUsedToday` equal
floor((now − activeStart)/1000) — truncation toward negative infinity.
This never rounds up, and whenever `now` is not before `activeStart` it
coincides with truncation toward zero; in the clock-skew case it can
undershoot toward-zero truncation by one. -/
theorem C9_amended_floor_not_trunc (st : Store) (userKey : String)
    (now start : Int) (u : Usage)
    (hu : st userKey = some u) (ha : u.activeStart = some start)
    (h0 : start ≠ 0) :
    (endSession st userKey now) userKey
      = some { u with secondsToday := u.secondsToday + (now - start).fdiv 1000,
                      activeStart := none } ∧
    1000 * (now - start).fdiv 1000 ≤ now - start ∧
    (start ≤ now → (now - start).fdiv 1000 = (now - start).tdiv 1000) := by
  refine ⟨?_, ?_, ?_⟩
  · simp [endSession, hu, ha, h0]
  · have he : (now - start).fdiv 1000 = (now - start) / 1000 :=
      Int.fdiv_eq_ediv _ (by decide)
    have hd := Int.ediv_add_emod (now - start) 1000
    have hm : 0 ≤ (now - start) % 1000 := Int.emod_nonneg _ (by decide)
    omega
  · intro hle
    have h1 : (now - start).fdiv 1000 = (now - start) / 1000 :=
      Int.fdiv_eq_ediv _ (by decide)
    have h2 : (now - start).tdiv 1000 = (now - start) / 1000 :=
      Int.tdiv_eq_ediv (by omega) (by decide)
    rw [h1, h2]

/-- C9 witness: the amended theorem applied to a concrete ledger with a
session opened at instant 2000 and closed at instant 3500 (1.5 s later,
1 second accrued). -/
theorem C9_amended_floor_not_trunc_witness :
    floorStore "u" = some floorUsage ∧
    floorUsage.activeStart = some 2000 ∧
    (2000 : Int) ≠ 0 ∧
    ((endSession floorStore "u" 3500) "u"
      = some { floorUsage with
                 secondsToday := floorUsage.secondsToday + (3500 - 2000 : Int).fdiv 1000,
                 activeStart := none } ∧
     1000 * (3500 - 2000 : Int).fdiv 1000 ≤ 3500 - 2000 ∧
     ((2000 : Int) ≤ 3500 → (3500 - 2000 : Int).fdiv 1000 = (3500 - 2000 : Int).tdiv 1000)) :=
  ⟨by decide, by decide, by decide,
   C9_amended_floor_not_trunc floorStore "u" 3500 2000 floorUsage
     (by decide) (by decide) (by decide)⟩

/-- Computation of `beginSession` on its overflow path: when, after
pruning and inserting the current day key, the day count exceeds the cap,
the call returns 0, stores the pruned-and-extended ledger with the
day-rollover applied and `activeStart` untouched, and changes no other
user's entry. -/
lemma beginSession_overflow (o : Int) (st : Store) (userKey : String)
    (now : Int) (u : Usage)
    (hu : st userKey = some u)
    (hover : (daysSet (cleanOldDays u now).days (getIstDateKey o now) now).length > MAX_DAYS) :
    (beginSession o st userKey now).2 = 0 ∧
    (beginSession o st userKey now).1 userKey = some
      { days := daysSet (cleanOldDays u now).days (getIstDateKey o now) now,
        secondsToday := if u.lastDay = getIstDateKey o now then u.secondsToday else 0,
        lastDay := getIstDateKey o now,
        activeStart := u.activeStart } ∧
    ∀ x, x ≠ userKey → (beginSession o st userKey now).1 x = st x := by
  have hb : beginSession o st userKey now =
      (fun x => if x = userKey then some
        { days := daysSet (cleanOldDays u now).days (getIstDateKey o now) now,
          secondsToday := if u.lastDay = getIstDateKey o now then u.secondsToday else 0,
          lastDay := getIstDateKey o now,
          activeStart := u.activeStart } else st x, 0) := by
    have hover2 := hover
    simp [cleanOldDays] at hover2
    unfold beginSession
    rw [hu]
    by_cases hld : u.lastDay = getIstDateKey o now
    · simp [cleanOldDays, hld, hover2]
    · simp [cleanOldDays, hld, hover2]
  rw [hb]
  refine ⟨rfl, by simp, ?_⟩
  intro x hx
  simp [hx]

/-- C3: for every user whose pruned ledger already records five distinct
days (all within the trailing 30-day window, so pruning removes none),
`beginSession` on a sixth distinct civil day returns 0 regardless of
unused seconds on prior days; the new day key is inserted into the day
set before the count check, so the overflow-causing day itself is
recorded yet rejected. -/
theorem C3_sixth_day_rejected (o : Int) (st : Store) (userKey : String)
    (now : Int) (u : Usage)
    (hu : st userKey = some u)
    (hlen : u.days.length = MAX_DAYS)
    (hrecent : ∀ p ∈ u.days, now - 30 * DAY_MS ≤ p.2)
    (hfresh : ∀ p ∈ u.days, p.1 ≠ getIstDateKey o now) :
    (beginSession o st userKey now).2 = 0 ∧
    ∃ v, (beginSession o st userKey now).1 userKey = some v ∧
      (getIstDateKey o now, now) ∈ v.days ∧ v.days.length = MAX_DAYS + 1 := by
  have hclean : (cleanOldDays u now).days = u.days :=
    List.filter_eq_self.mpr (fun p hp => decide_eq_true (hrecent p hp))
  have hany : ¬(u.days.any (fun p => decide (p.1 = getIstDateKey o now)) = true) := by
    rw [List.any_eq_true]
    intro hex
    obtain ⟨p, hp, hpk⟩ := hex
    rw [decide_eq_true_eq] at hpk
    exact hfresh p hp hpk
  have hset : daysSet u.days (getIstDateKey o now) now
      = u.days ++ [(getIstDateKey o now, now)] := by
    unfold daysSet
    rw [if_neg hany]
  have hover : (daysSet (cleanOldDays u now).days (getIstDateKey o now) now).length
      > MAX_DAYS := by
    rw [hclean, hset]
    simp [hlen, MAX_DAYS]
  obtain ⟨h2, h1, _⟩ := beginSession_overflow o st userKey now u hu hover
  refine ⟨h2, _, h1, ?_, ?_⟩
  · rw [hclean, hset]
    exact List.mem_append_right _ (List.mem_singleton_self _)
  · rw [hclean, hset]
    simp [hlen, MAX_DAYS]

/-- C3 witness: the theorem applied to a concrete ledger holding five
distinct prior days (keys 10–14) when day key 5 begins a session. -/
theorem C3_sixth_day_rejected_witness :
    fiveDayStoreB "u" = some fiveDayUsageB ∧
    fiveDayUsageB.days.length = MAX_DAYS ∧
    (∀ p ∈ fiveDayUsageB.days, (432000000 : Int) - 30 * DAY_MS ≤ p.2) ∧
    (∀ p ∈ fiveDayUsageB.days, p.1 ≠ getIstDateKey 0 432000000) ∧
    ((beginSession 0 fiveDayStoreB "u" 432000000).2 = 0 ∧
     ∃ v, (beginSession 0 fiveDayStoreB "u" 432000000).1 "u" = some v ∧
       (getIstDateKey 0 432000000, 432000000) ∈ v.days ∧
       v.days.length = MAX_DAYS + 1) :=
  ⟨rfl, by decide, by decide, by decide,
   C3_sixth_day_rejected 0 fiveDayStoreB "u" 432000000 fiveDayUsageB rfl
     (by decide) (by decide) (by decide)⟩

/-- C10 counterexample: the claim says the only state change of a
day-cap-rejected `beginSession` call is the insertion/refresh of the new
day key (plus pruning).  But the day-rollover branch runs before the
count check: a rejected call landing on a fresh civil day also resets
`secondsUsedToday` from 300 to 0 and moves `lastDayKey` from day 0 to
day 5. -/
theorem C10_counterexample :
    (beginSession 0 fiveDayStore "u" 432000000).2 = 0 ∧
    fiveDayUsage.activeStart = none ∧
    fiveDayUsage.secondsToday = 300 ∧
    ((beginSession 0 fiveDayStore "u" 432000000).1 "u").map Usage.secondsToday
      = some 0 ∧
    fiveDayUsage.lastDay = 0 ∧
    ((beginSession 0 fiveDayStore "u" 432000000).1 "u").map Usage.lastDay
      = some 5 := by
  decide

/-- C10 amended: for every ledger with no open `activeStart`, a
`beginSession` call rejected by the day-count check returns before
setting `activeStart`, so `activeStart` stays unset and an immediately
following `endSession` is a no-op; the state changes of the rejected call
are exactly pruning, the insertion/refresh of the new day key, and — when
the new day key differs from `lastDayKey` — the day-rollover
(`lastDayKey` updated, `secondsUsedToday` reset to 0).  Other users'
entries are untouched. -/
theorem C10_amended_rejected_call_state (o : Int) (st : Store)
    (userKey : String) (now : Int) (u : Usage)
    (hu : st userKey = some u)
    (hact : u.activeStart = none)
    (hover : (daysSet (cleanOldDays u now).days (getIstDateKey o now) now).length
      > MAX_DAYS) :
    (beginSession o st userKey now).2 = 0 ∧
    (beginSession o st userKey now).1 userKey = some
      { days := daysSet (cleanOldDays u now).days (getIstDateKey o now) now,
        secondsToday := if u.lastDay = getIstDateKey o now then u.secondsToday else 0,
        lastDay := getIstDateKey o now,
        activeStart := none } ∧
    (∀ x, x ≠ userKey → (beginSession o st userKey now).1 x = st x) ∧
    (∀ t2, endSession (beginSession o st userKey now).1 userKey t2
      = (beginSession o st userKey now).1) := by
  obtain ⟨h2, h1, hframe⟩ := beginSession_overflow o st userKey now u hu hover
  rw [hact] at h1
  refine ⟨h2, h1, hframe, ?_⟩
  intro t2
  simp [endSession, h1]

/-- C10 witness: the amended theorem applied to the concrete five-day
ledger rejected on civil day 5. -/
theorem C10_amended_rejected_call_state_witness :
    fiveDayStore "u" = some fiveDayUsage ∧
    fiveDayUsage.activeStart = none ∧
    (daysSet (cleanOldDays fiveDayUsage 432000000).days
      (getIstDateKey 0 432000000) 432000000).length > MAX_DAYS ∧
    ((beginSession 0 fiveDayStore "u" 432000000).2 = 0 ∧
     (beginSession 0 fiveDayStore "u" 432000000).1 "u" = some
       { days := daysSet (cleanOldDays fiveDayUsage 432000000).days
           (getIstDateKey 0 432000000) 432000000,
         secondsToday := if fiveDayUsage.lastDay = getIstDateKey 0 432000000
           then fiveDayUsage.secondsToday else 0,
         lastDay := getIstDateKey 0 432000000,
         activeStart := none } ∧
     (∀ x, x ≠ "u" → (beginSession 0 fiveDayStore "u" 432000000).1 x
       = fiveDayStore x) ∧
     (∀ t2, endSession (beginSession 0 fiveDayStore "u" 432000000).1 "u" t2
       = (beginSession 0 fiveDayStore "u" 432000000).1)) :=
  ⟨rfl, rfl, by decide,
   C10_amended_rejected_call_state 0 fiveDayStore "u" 432000000 fiveDayUsage
     rfl rfl (by decide)⟩

lemma flooredIntervalSeconds_nonneg (p : Int × Int) (h : p.1 ≤ p.2) :
    0 ≤ flooredIntervalSeconds p :=
  Int.fdiv_nonneg (by omega) (by decide)

lemma intervalsTotal_nonneg (L : List (Int × Int))
    (h : ∀ p ∈ L, p.1 ≤ p.2) : 0 ≤ intervalsTotal L := by
  induction L with
  | nil => simp [intervalsTotal]
  | cons p rest ih =>
    have h1 := flooredIntervalSeconds_nonneg p (h p (List.mem_cons_self p rest))
    have h2 := ih (fun q hq => h q (List.mem_cons_of_mem p hq))
    have : intervalsTotal (p :: rest) = flooredIntervalSeconds p + intervalsTotal rest := by
      simp [intervalsTotal]
    omega

/-- One properly paired `beginSession`/`endSession` round on a single-day
ledger: `beginSession` returns the cap minus the seconds accrued so far,
and after `endSession` the ledger has accrued the floored interval
seconds on top, with no session open. -/
lemma beginEnd_round (o : Int) (userKey : String) (k acc : Int)
    (p : Int × Int) (st : Store)
    (hled : LedgerAt o st userKey k acc)
    (hp1 : getIstDateKey o p.1 = k) (hp2 : getIstDateKey o p.2 = k)
    (hse : p.1 ≤ p.2) (hpos : 0 < p.1)
    (hacc : acc ≤ MAX_SECONDS) :
    (beginSession o st userKey p.1).2 = MAX_SECONDS - acc ∧
    LedgerAt o (endSession (beginSession o st userKey p.1).1 userKey p.2)
      userKey k (acc + flooredIntervalSeconds p) := by
  have hmax : max 0 (MAX_SECONDS - acc) = MAX_SECONDS - acc :=
    max_eq_right (sub_nonneg.mpr hacc)
  have hday : ¬((1 : Nat) > MAX_DAYS) := by decide
  have hMS : (0 : Int) ≤ MAX_SECONDS := by decide
  have hbegin : beginSession o st userKey p.1 =
      (fun x => if x = userKey then some
        { days := [(k, p.1)], secondsToday := acc, lastDay := k,
          activeStart := some p.1 } else st x,
       MAX_SECONDS - acc) := by
    cases hled with
    | inl h =>
      obtain ⟨hnone, hacc0⟩ := h
      subst hacc0
      unfold beginSession
      rw [hnone]
      simp [cleanOldDays, daysSet, hp1, hmax, hday, hMS]
    | inr h =>
      obtain ⟨t0, hkt0, hsome⟩ := h
      have hlt : p.1 - t0 < 86400000 :=
        sub_lt_msPerDay_of_key_eq o p.1 t0 (by rw [hp1, hkt0])
      have hkeep : p.1 ≤ t0 + 30 * DAY_MS := by
        show p.1 ≤ t0 + 30 * 86400000
        omega
      unfold beginSession
      rw [hsome]
      simp [cleanOldDays, daysSet, hp1, hmax, hday, hMS, hkeep]
  have hst1 : (beginSession o st userKey p.1).1 userKey = some
      { days := [(k, p.1)], secondsToday := acc, lastDay := k,
        activeStart := some p.1 } := by
    rw [hbegin]
    simp
  have hne : p.1 ≠ 0 := by omega
  have hend : endSession (beginSession o st userKey p.1).1 userKey p.2
      = fun x => if x = userKey then some
          { days := [(k, p.1)], secondsToday := acc + (p.2 - p.1).fdiv 1000,
            lastDay := k, activeStart := none }
        else (beginSession o st userKey p.1).1 x := by
    simp [endSession, hst1, hne]
  refine ⟨by rw [hbegin], Or.inr ⟨p.1, hp1, ?_⟩⟩
  rw [hend]
  simp [flooredIntervalSeconds]

/-- Along a list of same-day intervals, the single-round lemma carried by
induction: the ledger accrues the running total and `beginSession` returns
the predicted remaining budgets. -/
lemma runIntervals_spec (o : Int) (userKey : String) (k : Int)
    (L : List (Int × Int)) :
    ∀ (st : Store) (acc : Int), LedgerAt o st userKey k acc →
    (∀ p ∈ L, SameDayInterval o k p) → 0 ≤ acc →
    acc + intervalsTotal L ≤ MAX_SECONDS →
    LedgerAt o (runIntervals o userKey st L).1 userKey k (acc + intervalsTotal L) ∧
    (runIntervals o userKey st L).2 = expectedReturns acc L := by
  induction L with
  | nil =>
    intro st acc hled _ _ _
    constructor
    · simpa [runIntervals, intervalsTotal] using hled
    · simp [runIntervals, expectedReturns]
  | cons p rest ih =>
    intro st acc hled hSD hacc hsum
    obtain ⟨hp1, hp2, hse, hpos⟩ := hSD p (List.mem_cons_self p rest)
    have htot : intervalsTotal (p :: rest)
        = flooredIntervalSeconds p + intervalsTotal rest := by
      simp [intervalsTotal]
    have hd0 : 0 ≤ flooredIntervalSeconds p :=
      flooredIntervalSeconds_nonneg p hse
    have hrest0 : 0 ≤ intervalsTotal rest :=
      intervalsTotal_nonneg rest
        (fun q hq => (hSD q (List.mem_cons_of_mem p hq)).2.2.1)
    have haccM : acc ≤ MAX_SECONDS := by
      rw [htot] at hsum
      omega
    obtain ⟨hret, hled2⟩ :=
      beginEnd_round o userKey k acc p st hled hp1 hp2 hse hpos haccM
    have hsum2 : (acc + flooredIntervalSeconds p) + intervalsTotal rest
        ≤ MAX_SECONDS := by
      rw [htot] at hsum
      omega
    obtain ⟨ihA, ihB⟩ :=
      ih (endSession (beginSession o st userKey p.1).1 userKey p.2)
        (acc + flooredIntervalSeconds p) hled2
        (fun q hq => hSD q (List.mem_cons_of_mem p hq)) (by omega) hsum2
    constructor
    · have hfst : (runIntervals o userKey st (p :: rest)).1
          = (runIntervals o userKey
              (endSession (beginSession o st userKey p.1).1 userKey p.2) rest).1 := by
        simp [runIntervals]
      rw [hfst, htot, ← add_assoc]
      exact ihA
    · have hsnd : (runIntervals o userKey st (p :: rest)).2
          = (beginSession o st userKey p.1).2
            :: (runIntervals o userKey
                 (endSession (beginSession o st userKey p.1).1 userKey p.2) rest).2 := by
        simp [runIntervals]
      rw [hsnd, hret, ihB]
      simp [expectedReturns]

/-- C2: for every user with no prior usage and every properly paired
single-day sequence of `beginSession`/`endSession` calls whose floored
elapsed intervals total at most the 900-second cap, `getRemainingSeconds`
queried afterwards on the same day equals 900 minus the sum of the
intervals (each floored to whole seconds), and along the way each
`beginSession` returns the cap minus the seconds accrued so far — in
particular the first returns 900. -/
theorem C2_single_day_budget (o : Int) (st : Store) (userKey : String)
    (k q : Int) (L : List (Int × Int))
    (h0 : st userKey = none)
    (hL : ∀ p ∈ L, SameDayInterval o k p)
    (hq : getIstDateKey o q = k)
    (hsum : intervalsTotal L ≤ MAX_SECONDS) :
    getTrialBudgetSecondsLeft o (runIntervals o userKey st L).1 userKey q
      = MAX_SECONDS - intervalsTotal L ∧
    (runIntervals o userKey st L).2 = expectedReturns 0 L := by
  have hled : LedgerAt o st userKey k 0 := Or.inl ⟨h0, rfl⟩
  obtain ⟨hA, hB⟩ := runIntervals_spec o userKey k L st 0 hled hL (le_refl 0)
    (by simpa using hsum)
  rw [zero_add] at hA
  refine ⟨?_, hB⟩
  have htot0 : 0 ≤ intervalsTotal L :=
    intervalsTotal_nonneg L (fun p hp => (hL p hp).2.2.1)
  cases hA with
  | inl h =>
    obtain ⟨hnone, hz⟩ := h
    unfold getTrialBudgetSecondsLeft
    rw [hnone, hz]
    simp
  | inr h =>
    obtain ⟨t1, _, hsome⟩ := h
    unfold getTrialBudgetSecondsLeft
    rw [hsome]
    simp only [hq]
    rw [if_neg (by simp)]
    exact max_eq_right (sub_nonneg.mpr hsum)

/-- C2 witness: the theorem applied to a fresh user and one 300-second
interval — `beginSession` returns 900 and `getRemainingSeconds`
afterwards returns 600. -/
theorem C2_single_day_budget_witness :
    emptyStore "u" = none ∧
    (∀ p ∈ oneInterval, SameDayInterval 0 0 p) ∧
    getIstDateKey 0 301000 = 0 ∧
    intervalsTotal oneInterval ≤ MAX_SECONDS ∧
    (getTrialBudgetSecondsLeft 0 (runIntervals 0 "u" emptyStore oneInterval).1
        "u" 301000 = MAX_SECONDS - intervalsTotal oneInterval ∧
     (runIntervals 0 "u" emptyStore oneInterval).2 = expectedReturns 0 oneInterval) ∧
    MAX_SECONDS - intervalsTotal oneInterval = 600 ∧
    expectedReturns 0 oneInterval = [900] :=
  ⟨rfl, by decide, by decide, by decide,
   C2_single_day_budget 0 emptyStore "u" 0 301000 oneInterval rfl
     (by decide) (by decide) (by decide),
   by decide, by decide⟩

end DolphinBrowse
